import Mathlib

/-!
Shallow embedding of the fishbone (Ishikawa) diagram engine of
`streamlit_app.py`: the text wrapper `_wrap_by_chars`, the escaping text
renderer `_tspans`, and the diagram builder `fishbone_svg`.

Python strings are modelled as `List Char`; Python floats as `ℚ`, with the
square root `(dx**2 + dy**2)**0.5` and the float-to-decimal rendering of
interpolated values kept as explicit function parameters (`sq`, `showQ`),
so every theorem below holds for every choice of those two functions.
-/

namespace Fishbone

/-- Python `str.strip()`: whitespace removed from both ends. -/
def pyStrip (s : List Char) : List Char :=
  List.rdropWhile (fun c => c.isWhitespace) (List.dropWhile (fun c => c.isWhitespace) s)

/-- The `while i < len(s) and len(out) < max_lines` loop of `_wrap_by_chars`:
`rem` is the number of line slots still free; returns the collected chunks
`s[i : i + maxChars]` together with the final value of `i`. -/
def wrapLoop (s : List Char) (maxChars : Nat) : Nat → Nat → List (List Char) × Nat
  | i, 0 => ([], i)
  | i, rem + 1 =>
    if i < s.length then
      let r := wrapLoop s maxChars (i + maxChars) rem
      (((s.drop i).take maxChars) :: r.1, r.2)
    else ([], i)

/-- `(out[-1][:-1] + "…") if len(out[-1]) >= 1 else "…"`. -/
def elideLine (l : List Char) : List Char :=
  if 1 ≤ l.length then l.dropLast ++ ['…'] else ['…']

/-- `out[-1] = elideLine out[-1]`: replace the last collected line. -/
def setLastElided : List (List Char) → List (List Char)
  | [] => []
  | [l] => [elideLine l]
  | l :: l' :: rest => l :: setLastElided (l' :: rest)

/-- `_wrap_by_chars(text, max_chars, max_lines)` from the source. -/
def wrapByChars (text : List Char) (maxChars maxLines : Nat) : List (List Char) :=
  let s := pyStrip text
  if s = [] then []
  else
    let r := wrapLoop s maxChars 0 maxLines
    if r.2 < s.length ∧ r.1 ≠ [] then setLastElided r.1 else r.1

/-- Does the last line of the wrapper output end in the ellipsis marker? -/
def lastEndsEllipsis (out : List (List Char)) : Bool :=
  match out.getLast? with
  | some l =>
    match l.getLast? with
    | some c => c == '…'
    | none => false
  | none => false

example : wrapByChars "abcde".data 2 3 = ["ab".data, "cd".data, ['e']] := by decide
example : wrapByChars "abcdefgh".data 2 3 = ["ab".data, "cd".data, ['e', '…']] := by decide
example : wrapByChars "  ".data 5 3 = [] := by decide
example : wrapByChars "ab".data 0 1 = [['…']] := by decide
example : wrapByChars "ab    ".data 1 3 = [['a'], ['b']] := by decide

/-- `html.escape` on one character (`quote=True`, the default). -/
def escChar (c : Char) : List Char :=
  if c = '&' then ['&', 'a', 'm', 'p', ';']
  else if c = '<' then ['&', 'l', 't', ';']
  else if c = '>' then ['&', 'g', 't', ';']
  else if c = '"' then ['&', 'q', 'u', 'o', 't', ';']
  else if c = '\'' then ['&', '#', 'x', '2', '7', ';']
  else [c]

/-- `html.escape(s)`: every character replaced by its escaped form. -/
def htmlEscape : List Char → List Char
  | [] => []
  | c :: s => escChar c ++ htmlEscape s

/-- Does `pat` occur at the very start of the second list? -/
def startsWithChars : List Char → List Char → Bool
  | [], _ => true
  | _ :: _, [] => false
  | p :: ps, c :: cs => p == c && startsWithChars ps cs

/-- Fuel-driven scanner: every occurrence of `&` must start one of the five
entities that `html.escape` can emit; a stray `&` renders the string
ill-escaped.  The fuel only needs to dominate the list length. -/
def ampEscapedF : List Char → Nat → Bool
  | [], _ => true
  | _ :: _, 0 => false
  | c :: r, fuel + 1 =>
    if c = '&' then
      if startsWithChars ['a', 'm', 'p', ';'] r then ampEscapedF (r.drop 4) fuel
      else if startsWithChars ['l', 't', ';'] r then ampEscapedF (r.drop 3) fuel
      else if startsWithChars ['g', 't', ';'] r then ampEscapedF (r.drop 3) fuel
      else if startsWithChars ['q', 'u', 'o', 't', ';'] r then ampEscapedF (r.drop 5) fuel
      else if startsWithChars ['#', 'x', '2', '7', ';'] r then ampEscapedF (r.drop 5) fuel
      else false
    else ampEscapedF r fuel

/-- A string is well escaped with respect to ampersands. -/
def ampEscaped (l : List Char) : Bool := ampEscapedF l l.length

example : htmlEscape "a<b&c\"d".data = "a&lt;b&amp;c&quot;d".data := by decide
example : ampEscaped "a&lt;b&amp;c".data = true := by decide
example : ampEscaped "a&zb".data = false := by decide

/-- Default `fill` of `_tspans`. -/
def defaultFill : List Char := "#0f172a".data

/-- One `<tspan>` chunk of `_tspans`: `dy` is `"0"` for the first line and
`str(line_h)` afterwards, the line content goes through `html.escape`. -/
def tspanChunk (showQ : ℚ → List Char) (x lineH : ℚ) (i : Nat) (line : List Char) : List Char :=
  let dy := if i = 0 then ['0'] else showQ lineH
  "<tspan x=\"".data ++ showQ x ++ "\" dy=\"".data ++ dy ++ "\">".data
    ++ htmlEscape line ++ "</tspan>".data

/-- The `for i, line in enumerate(lines)` loop of `_tspans`. -/
def tspanChunks (showQ : ℚ → List Char) (x lineH : ℚ) : Nat → List (List Char) → List Char
  | _, [] => []
  | i, line :: rest => tspanChunk showQ x lineH i line ++ tspanChunks showQ x lineH (i + 1) rest

/-- `_tspans(lines, x, first_y, line_h, anchor, font_size, font_weight, fill)`. -/
def tspans (showQ : ℚ → List Char) (lines : List (List Char)) (x firstY lineH : ℚ)
    (anchor : List Char) (fontSize : Nat) (fontWeight fill : List Char) : List Char :=
  if lines = [] then []
  else
    "<text x=\"".data ++ showQ x ++ "\" y=\"".data ++ showQ firstY
      ++ "\" text-anchor=\"".data ++ anchor
      ++ "\" font-size=\"".data ++ (Nat.repr fontSize).data
      ++ "\" font-weight=\"".data ++ fontWeight
      ++ "\" font-family=\"Sarabun, Noto Sans Thai, sans-serif\" fill=\"".data ++ fill
      ++ "\">".data
      ++ tspanChunks showQ x lineH 0 lines
      ++ "</text>".data

/-- A category as handed to `fishbone_svg`: a label and a list of items. -/
structure CatIn where
  label : List Char
  items : List (List Char)
deriving DecidableEq

/-- One of the four fixed bone anchors `{"x": …, "end_y": …, "top": …}`. -/
structure Anchor where
  x : ℚ
  endY : ℚ
  top : Bool
deriving DecidableEq

def canvasW : Nat := 2400
def canvasH : Nat := 1200
def spineY : ℚ := 600
def headX : ℚ := 1700
def headY : ℚ := 380
def headW : ℚ := 620
def endDx : ℚ := 300
def ribLen : ℚ := 54

/-- `rib_positions = [0.38, 0.62]`. -/
def ribPositions : List ℚ := [38 / 100, 62 / 100]

/-- The four fixed anchors (top-left, top-right, bottom-left, bottom-right). -/
def anchors : List Anchor :=
  [⟨820, 280, true⟩, ⟨1250, 280, true⟩, ⟨920, 940, false⟩, ⟨1350, 940, false⟩]

def thaiNoData : List Char := "ยังไม่มีข้อมูล".data
def thaiUnspecified : List Char := "ไม่ระบุ".data
def defaultEffect : List Char := "เหตุการณ์ / ผลลัพธ์".data

/-- Per-category normalization: strip the label, fall back to `"ไม่ระบุ"` when
blank, strip the items, drop items that are blank after stripping, keep the
first two of the rest. -/
def normCat (c : CatIn) : CatIn :=
  let label := pyStrip c.label
  { label := if label = [] then thaiUnspecified else label
    items := ((c.items.map pyStrip).filter (fun x => !(x = [] : Bool))).take 2 }

/-- `raw = categories or []; if not raw: raw = [placeholder]; raw = raw[:4]`
followed by the normalization loop. -/
def normCats (categories : List CatIn) : List CatIn :=
  let raw := if categories = [] then [⟨thaiNoData, []⟩] else categories
  (raw.take 4).map normCat

/-- `while len(cats) < 4: cats.append({"label": "", "items": []})`. -/
def padCats (cs : List CatIn) : List CatIn :=
  cs ++ List.replicate (4 - cs.length) ⟨[], []⟩

/-- Python `x or 1.0` on a float: `0.0` is the only falsy value. -/
def pyOrOne (q : ℚ) : ℚ := if q = 0 then 1 else q

/-- A `<line …/>` element of `line_layer`, with its geometry and style. -/
structure LineElem where
  x1 : ℚ
  y1 : ℚ
  x2 : ℚ
  y2 : ℚ
  stroke : List Char
  strokeWidth : Nat
deriving DecidableEq

def boneStroke : List Char := "#334155".data
def ribStroke : List Char := "#64748b".data

def isBoneLine (e : LineElem) : Bool := e.stroke == boneStroke
def isRibLine (e : LineElem) : Bool := e.stroke == ribStroke

/-- `(end_x, end_y)` of the bone: `end_x = x - end_dx`. -/
def boneEnd (a : Anchor) : ℚ × ℚ := (a.x - endDx, a.endY)

/-- The bone line drawn from the spine point to the bone end. -/
def boneLine (a : Anchor) : LineElem :=
  ⟨a.x, spineY, (boneEnd a).1, (boneEnd a).2, boneStroke, 4⟩

/-- `(dx, dy) = (end_x - x, end_y - spine_y)`. -/
def boneDelta (a : Anchor) : ℚ × ℚ := ((boneEnd a).1 - a.x, a.endY - spineY)

/-- `ln = (dx ** 2 + dy ** 2) ** 0.5 or 1.0`, the square root abstracted. -/
def boneLen (sq : ℚ → ℚ) (a : Anchor) : ℚ :=
  pyOrOne (sq ((boneDelta a).1 ^ 2 + (boneDelta a).2 ^ 2))

/-- `(ux, uy) = (dx / ln, dy / ln)`. -/
def unitDir (sq : ℚ → ℚ) (a : Anchor) : ℚ × ℚ :=
  ((boneDelta a).1 / boneLen sq a, (boneDelta a).2 / boneLen sq a)

/-- `px, py = -uy, ux; if is_top: px, py = -px, -py`. -/
def ribDir (sq : ℚ → ℚ) (a : Anchor) : ℚ × ℚ :=
  let u := unitDir sq a
  let p : ℚ × ℚ := (-u.2, u.1)
  if a.top then (-p.1, -p.2) else p

def labelX (a : Anchor) : ℚ := (boneEnd a).1 - 360 - 14
def labelY (a : Anchor) : ℚ := if a.top then a.endY - 72 else a.endY + 18

/-- The category label box `<rect …/>`. -/
def labelRect (showQ : ℚ → List Char) (a : Anchor) : List Char :=
  "<rect x=\"".data ++ showQ (labelX a) ++ "\" y=\"".data ++ showQ (labelY a)
    ++ "\" width=\"360\" height=\"52\" rx=\"14\" fill=\"#ffffff\" stroke=\"#94a3b8\" stroke-width=\"2\"/>".data

/-- The category label text: one wrapped line of at most 28 characters. -/
def labelText (showQ : ℚ → List Char) (a : Anchor) (label : List Char) : List Char :=
  tspans showQ (wrapByChars label 28 1) (labelX a + 16) (labelY a + 33) 18
    "start".data 17 "700".data defaultFill

/-- `(sx, sy) = (x + dx * f, spine_y + dy * f)`. -/
def ribStart (a : Anchor) (f : ℚ) : ℚ × ℚ :=
  (a.x + (boneDelta a).1 * f, spineY + (boneDelta a).2 * f)

/-- `(ex, ey) = (sx + px * rib_len, sy + py * rib_len)`. -/
def ribEnd (sq : ℚ → ℚ) (a : Anchor) (f : ℚ) : ℚ × ℚ :=
  ((ribStart a f).1 + (ribDir sq a).1 * ribLen,
   (ribStart a f).2 + (ribDir sq a).2 * ribLen)

/-- The rib line drawn from the bone point outward. -/
def ribLineElem (sq : ℚ → ℚ) (a : Anchor) (f : ℚ) : LineElem :=
  ⟨(ribStart a f).1, (ribStart a f).2, (ribEnd sq a f).1, (ribEnd sq a f).2, ribStroke, 3⟩

/-- `box_h = 56 if len(item_lines) <= 1 else 76`. -/
def itemBoxH (itemLines : List (List Char)) : Nat := if itemLines.length ≤ 1 then 56 else 76

/-- `box_x = ex - box_w - 10`, clamped to the left margin `20`. -/
def itemBoxX (sq : ℚ → ℚ) (a : Anchor) (f : ℚ) : ℚ :=
  let bx := (ribEnd sq a f).1 - 410 - 10
  if bx < 20 then 20 else bx

/-- `box_y = ey - box_h - 6 if is_top else ey + 6`. -/
def itemBoxY (sq : ℚ → ℚ) (a : Anchor) (f : ℚ) (bh : ℚ) : ℚ :=
  if a.top then (ribEnd sq a f).2 - bh - 6 else (ribEnd sq a f).2 + 6

/-- The rib's item box `<rect …/>`. -/
def itemRect (showQ : ℚ → List Char) (x y : ℚ) (bh : Nat) : List Char :=
  "<rect x=\"".data ++ showQ x ++ "\" y=\"".data ++ showQ y
    ++ "\" width=\"410\" height=\"".data ++ (Nat.repr bh).data
    ++ "\" rx=\"10\" fill=\"#ffffff\" stroke=\"#e2e8f0\" stroke-width=\"1.5\" opacity=\"0.98\"/>".data

/-- Everything rendered for one rib: its line, its box, and its text
(two wrapped lines of at most 34 characters). -/
def ribElems (sq : ℚ → ℚ) (showQ : ℚ → List Char) (a : Anchor) (item : List Char) (f : ℚ) :
    LineElem × List (List Char) :=
  let il := wrapByChars item 34 2
  let bh := itemBoxH il
  let bx := itemBoxX sq a f
  let by' := itemBoxY sq a f (bh : ℚ)
  (ribLineElem sq a f,
   [itemRect showQ bx by' bh,
    tspans showQ il (bx + 12) (by' + 22) 20 "start".data 13 "400".data defaultFill])

/-- One iteration of the `for i, c in enumerate(cats)` loop: a category with
a blank label is skipped; otherwise it contributes its bone line and rib
lines to `line_layer` and its boxes and texts to `text_layer`. -/
def catElems (sq : ℚ → ℚ) (showQ : ℚ → List Char) (a : Anchor) (c : CatIn) :
    List LineElem × List (List Char) :=
  if c.label = [] then ([], [])
  else
    let ribs := ((c.items.take 2).zip ribPositions).map fun p => ribElems sq showQ a p.1 p.2
    (boneLine a :: ribs.map Prod.fst,
     labelRect showQ a :: labelText showQ a c.label :: (ribs.map Prod.snd).flatten)

/-- The two accumulation layers of `fishbone_svg`: `line_layer` (bones and
ribs) and `text_layer` (boxes and texts), over the padded normal form. -/
def fishboneLayers (sq : ℚ → ℚ) (showQ : ℚ → List Char) (categories : List CatIn) :
    List LineElem × List (List Char) :=
  let cats := padCats (normCats categories)
  let per := (cats.zip anchors).map fun p => catElems sq showQ p.2 p.1
  ((per.map Prod.fst).flatten, (per.map Prod.snd).flatten)

/-- `effect_lines = _wrap_by_chars(effect or "เหตุการณ์ / ผลลัพธ์", 26, 8)`. -/
def effectLines (effect : List Char) : List (List Char) :=
  wrapByChars (if effect = [] then defaultEffect else effect) 26 8

/-- The head text element of the diagram. -/
def effectText (showQ : ℚ → List Char) (effect : List Char) : List Char :=
  tspans showQ (effectLines effect) (headX + headW / 2) (headY + 98) 28
    "middle".data 20 "700".data defaultFill

/-- Serialization of one `line_layer` element. -/
def renderLineElem (showQ : ℚ → List Char) (e : LineElem) : List Char :=
  "<line x1=\"".data ++ showQ e.x1 ++ "\" y1=\"".data ++ showQ e.y1
    ++ "\" x2=\"".data ++ showQ e.x2 ++ "\" y2=\"".data ++ showQ e.y2
    ++ "\" stroke=\"".data ++ e.stroke
    ++ "\" stroke-width=\"".data ++ (Nat.repr e.strokeWidth).data ++ "\"/>".data

def svgOpen : List Char := "\n    <svg ".data

/-- `viewBox="0 0 {W} {H}"`. -/
def viewBoxAttr : List Char :=
  "viewBox=\"0 0 ".data ++ (Nat.repr canvasW).data ++ " ".data ++ (Nat.repr canvasH).data ++ "\"".data

def svgHeader2 : List Char :=
  " width=\"100%\" height=\"760\" xmlns=\"http://www.w3.org/2000/svg\">\n      <defs>\n        <marker id=\"arrowHead\" markerWidth=\"18\" markerHeight=\"18\" refX=\"15\" refY=\"9\" orient=\"auto\">\n          <path d=\"M0,0 L18,9 L0,18 Z\" fill=\"#0ea5e9\"/>\n        </marker>\n      </defs>\n\n      <!-- background -->\n      <rect x=\"0\" y=\"0\" width=\"2400\" height=\"1200\" fill=\"#ffffff\"/>\n\n      <!-- spine -->\n      <circle cx=\"180\" cy=\"600\" r=\"12\" fill=\"#0f172a\"/>\n      <line x1=\"180\" y1=\"600\" x2=\"1700\" y2=\"600\"\n            stroke=\"#0f172a\" stroke-width=\"8\" marker-end=\"url(#arrowHead)\"/>\n\n      <!-- lines first -->\n      ".data

def svgHeadPre : List Char :=
  "\n\n      <!-- head -->\n      <rect x=\"1700\" y=\"380\" width=\"620\" height=\"440\" rx=\"20\"\n            fill=\"#ffffff\" stroke=\"#0f172a\" stroke-width=\"4\"/>\n      <text x=\"".data

def svgHeadMid : List Char :=
  "\" y=\"432\" text-anchor=\"middle\"\n            font-size=\"22\" font-weight=\"800\"\n            font-family=\"Sarabun, Noto Sans Thai, sans-serif\" fill=\"#0f172a\">\n        เหตุการณ์ / ผลลัพธ์\n      </text>\n\n      ".data

def svgTextPre : List Char := "\n\n      <!-- text last -->\n      ".data

def svgTail : List Char :=
  "\n\n      <text x=\"170\" y=\"576\" text-anchor=\"middle\"\n            font-size=\"14\" font-weight=\"700\"\n            font-family=\"Sarabun, Noto Sans Thai, sans-serif\" fill=\"#475569\">สาเหตุ</text>\n    </svg>\n    ".data

/-- `fishbone_svg(effect, categories)`: the final markup string. -/
def fishboneSvg (sq : ℚ → ℚ) (showQ : ℚ → List Char) (effect : List Char)
    (categories : List CatIn) : List Char :=
  let layers := fishboneLayers sq showQ categories
  svgOpen ++ viewBoxAttr ++ svgHeader2
    ++ (layers.1.map (renderLineElem showQ)).flatten
    ++ svgHeadPre ++ showQ (headX + headW / 2) ++ svgHeadMid
    ++ effectText showQ effect
    ++ svgTextPre ++ layers.2.flatten ++ svgTail

/-- `s` occurs contiguously inside `t`. -/
def occursIn (s t : List Char) : Prop := ∃ u v, t = u ++ s ++ v

example :
    ((fishboneLayers (fun _ => 0) (fun _ => []) [⟨['A'], [['x'], ['y'], ['z']]⟩]).1.countP isRibLine) = 2 := by
  decide

example :
    ((fishboneLayers (fun _ => 0) (fun _ => []) [⟨['A'], [['x'], ['y'], ['z']]⟩]).1.countP isBoneLine) = 1 := by
  decide

example :
    ((fishboneLayers (fun _ => 0) (fun _ => []) []).1.countP isBoneLine) = 1 := by
  decide

/-! ### Properties of the text wrapper -/

theorem wrapLoop_length_le (s : List Char) (mc : Nat) :
    ∀ n i, (wrapLoop s mc i n).1.length ≤ n := by
  intro n
  induction n with
  | zero => intro i; simp [wrapLoop]
  | succ k ih =>
    intro i
    by_cases h : i < s.length
    · simpa [wrapLoop, h] using ih (i + mc)
    · simp [wrapLoop, h]

theorem wrapLoop_snd (s : List Char) (mc : Nat) :
    ∀ n i, (wrapLoop s mc i n).2 = i + (wrapLoop s mc i n).1.length * mc := by
  intro n
  induction n with
  | zero => intro i; simp [wrapLoop]
  | succ k ih =>
    intro i
    by_cases h : i < s.length
    · simp only [wrapLoop, if_pos h, List.length_cons]
      rw [ih (i + mc)]
      ring
    · simp [wrapLoop, h]

theorem wrapLoop_ne_nil (s : List Char) (mc : Nat) (n i : Nat)
    (hi : i < s.length) (hn : 1 ≤ n) : (wrapLoop s mc i n).1 ≠ [] := by
  cases n with
  | zero => omega
  | succ k => simp [wrapLoop, hi]

theorem wrapLoop_mem_length (s : List Char) (mc : Nat) :
    ∀ n i, ∀ l ∈ (wrapLoop s mc i n).1, l.length ≤ mc := by
  intro n
  induction n with
  | zero => intro i l hl; simp [wrapLoop] at hl
  | succ k ih =>
    intro i l hl
    by_cases h : i < s.length
    · simp only [wrapLoop, if_pos h, List.mem_cons] at hl
      rcases hl with rfl | hl
      · simp only [List.length_take]
        exact Nat.min_le_left mc _
      · exact ih (i + mc) l hl
    · simp [wrapLoop, h] at hl

theorem elideLine_length_le (l : List Char) (mc : Nat) (hmc : 1 ≤ mc)
    (h : l.length ≤ mc) : (elideLine l).length ≤ mc := by
  unfold elideLine
  split
  · simp [List.length_dropLast]
    omega
  · exact hmc

theorem elideLine_getLast? (l : List Char) : (elideLine l).getLast? = some '…' := by
  unfold elideLine
  split
  · exact List.getLast?_concat _
  · rfl

theorem setLastElided_length : ∀ out : List (List Char),
    (setLastElided out).length = out.length := by
  intro out
  induction out with
  | nil => rfl
  | cons l rest ih =>
    cases rest with
    | nil => rfl
    | cons l' rest' => simp [setLastElided, ih]

theorem setLastElided_lastEnds : ∀ out : List (List Char), out ≠ [] →
    lastEndsEllipsis (setLastElided out) = true := by
  intro out
  induction out with
  | nil => intro h; exact absurd rfl h
  | cons l rest ih =>
    intro _
    cases rest with
    | nil =>
      simp only [setLastElided, lastEndsEllipsis, List.getLast?_singleton,
        elideLine_getLast?]
      rfl
    | cons l' rest' =>
      have h2 := ih (List.cons_ne_nil l' rest')
      rcases hs : setLastElided (l' :: rest') with _ | ⟨a, as⟩
      · have := setLastElided_length (l' :: rest')
        rw [hs] at this
        simp at this
      · rw [hs] at h2
        show lastEndsEllipsis (l :: setLastElided (l' :: rest')) = true
        rw [hs]
        simpa [lastEndsEllipsis, List.getLast?_cons_cons] using h2

theorem setLastElided_mem_length (mc : Nat) (hmc : 1 ≤ mc) :
    ∀ out : List (List Char), (∀ l ∈ out, l.length ≤ mc) →
    ∀ l' ∈ setLastElided out, l'.length ≤ mc := by
  intro out
  induction out with
  | nil => intro _ l' hl'; simp [setLastElided] at hl'
  | cons l rest ih =>
    intro hall l' hl'
    cases rest with
    | nil =>
      simp only [setLastElided, List.mem_singleton] at hl'
      subst hl'
      exact elideLine_length_le l mc hmc (hall l (List.mem_singleton_self l))
    | cons a as =>
      simp only [setLastElided, List.mem_cons] at hl'
      rcases hl' with rfl | hl'
      · exact hall l' (List.mem_cons_self _ _)
      · exact ih (fun x hx => hall x (List.mem_cons_of_mem _ hx)) l' hl'

theorem pyStrip_idem (s : List Char) : pyStrip (pyStrip s) = pyStrip s := by
  have hdrop : List.dropWhile (fun c => c.isWhitespace) (pyStrip s) = pyStrip s := by
    rcases hu : pyStrip s with _ | ⟨a, u⟩
    · simp
    · rw [List.dropWhile_cons]
      obtain ⟨w, hw⟩ : ∃ w, pyStrip s ++ w = List.dropWhile (fun c => c.isWhitespace) s := by
        obtain ⟨w, hw⟩ :=
          List.dropWhile_suffix (l := (List.dropWhile (fun c => c.isWhitespace) s).reverse)
            (fun c => c.isWhitespace)
        exact ⟨w.reverse, by
          simpa [pyStrip, List.rdropWhile] using congrArg List.reverse hw⟩
      have hne : List.dropWhile (fun c => c.isWhitespace) s ≠ [] := by
        rw [← hw, hu]; simp
      have hhead : (List.dropWhile (fun c => c.isWhitespace) s).head hne = a := by
        have : pyStrip s ++ w = a :: (u ++ w) := by rw [hu]; simp
        rw [hw] at this
        simp [this]
      have hfalse := List.head_dropWhile_not (fun c => c.isWhitespace) s hne
      rw [hhead] at hfalse
      simp [hfalse]
  calc pyStrip (pyStrip s)
      = List.rdropWhile (fun c => c.isWhitespace)
          (List.dropWhile (fun c => c.isWhitespace) (pyStrip s)) := rfl
    _ = List.rdropWhile (fun c => c.isWhitespace) (pyStrip s) := by rw [hdrop]
    _ = pyStrip s := List.rdropWhile_idempotent _ _

/-- C3, counterexample: the claim promises every returned line has length at
most `maxChars` for every pair `(maxChars, maxLines)`, but with
`maxChars = 0` on input `"ab"` the wrapper returns the single line `"…"` of
length `1 > 0` (the ellipsis branch `else "…"` produces a one-character
line). -/
theorem wrap_line_bound_cex :
    ¬ (∀ l ∈ wrapByChars "ab".data 0 1, l.length ≤ 0) := by decide

/-- C3 (amended): `_wrap_by_chars` always returns at most `maxLines` lines;
when `maxChars ≥ 1` every returned line has length at most `maxChars`; the
result is empty for empty or whitespace-only input; and the input is trimmed
first (wrapping the stripped input gives the same result). -/
theorem wrap_bounds (text : List Char) (mc ml : Nat) :
    (wrapByChars text mc ml).length ≤ ml
    ∧ (1 ≤ mc → ∀ l ∈ wrapByChars text mc ml, l.length ≤ mc)
    ∧ (pyStrip text = [] → wrapByChars text mc ml = [])
    ∧ wrapByChars text mc ml = wrapByChars (pyStrip text) mc ml := by
  refine ⟨?_, ?_, ?_, ?_⟩
  · simp only [wrapByChars]
    split
    · simp
    · split
      · rw [setLastElided_length]
        exact wrapLoop_length_le _ _ _ _
      · exact wrapLoop_length_le _ _ _ _
  · intro hmc
    simp only [wrapByChars]
    split
    · intro l hl
      simp at hl
    · split
      · exact setLastElided_mem_length mc hmc _
          (fun x hx => wrapLoop_mem_length _ _ _ _ x hx)
      · exact fun l hl => wrapLoop_mem_length _ _ _ _ l hl
  · intro h
    simp [wrapByChars, h]
  · simp only [wrapByChars, pyStrip_idem]

/-- C3, witness for the amended statement at `text = "  abcde  "`,
`maxChars = 2`, `maxLines = 2` (and at whitespace-only `"   "`). -/
theorem wrap_bounds_witness :
    (wrapByChars "  abcde  ".data 2 2).length ≤ 2
    ∧ (∀ l ∈ wrapByChars "  abcde  ".data 2 2, l.length ≤ 2)
    ∧ wrapByChars "   ".data 2 2 = []
    ∧ wrapByChars "  abcde  ".data 2 2 = wrapByChars (pyStrip "  abcde  ".data) 2 2 :=
  ⟨(wrap_bounds "  abcde  ".data 2 2).1,
   (wrap_bounds "  abcde  ".data 2 2).2.1 (by decide),
   (wrap_bounds "   ".data 2 2).2.2.1 (by decide),
   (wrap_bounds "  abcde  ".data 2 2).2.2.2⟩

/-- C4, counterexample: the claim triggers the ellipsis whenever
`len(s) > maxChars * maxLines`, but the wrapper trims first: `"ab    "` has
length `6 > 1 * 3`, yet the output `["a", "b"]` ends in `"b"` with no
ellipsis marker. -/
theorem wrap_ellipsis_cex :
    1 * 3 < ("ab    ".data).length
    ∧ lastEndsEllipsis (wrapByChars "ab    ".data 1 3) = false := by decide

/-- C4 (amended): when `maxLines ≥ 1`, the trimmed input is non-empty and its
length exceeds `maxChars * maxLines`, the last returned line ends with the
ellipsis marker; moreover the replacement drops the last line's final
character and appends `'…'`, and a one-character last line becomes `"…"`
alone. -/
theorem wrap_ellipsis (text : List Char) (mc ml : Nat) (hml : 1 ≤ ml)
    (hne : pyStrip text ≠ []) (hlt : mc * ml < (pyStrip text).length) :
    lastEndsEllipsis (wrapByChars text mc ml) = true
    ∧ (∀ l : List Char, l ≠ [] → elideLine l = l.dropLast ++ ['…'])
    ∧ (∀ l : List Char, l.length = 1 → elideLine l = ['…']) := by
  refine ⟨?_, ?_, ?_⟩
  · have hcond : (wrapLoop (pyStrip text) mc 0 ml).2 < (pyStrip text).length := by
      rw [wrapLoop_snd]
      have h1 : (wrapLoop (pyStrip text) mc 0 ml).1.length * mc ≤ ml * mc :=
        Nat.mul_le_mul_right _ (wrapLoop_length_le _ _ _ _)
      have h2 : ml * mc = mc * ml := Nat.mul_comm _ _
      omega
    have hnil : (wrapLoop (pyStrip text) mc 0 ml).1 ≠ [] :=
      wrapLoop_ne_nil _ _ _ _ (List.length_pos.mpr hne) hml
    have hrw : wrapByChars text mc ml = setLastElided (wrapLoop (pyStrip text) mc 0 ml).1 := by
      simp only [wrapByChars]
      rw [if_neg hne, if_pos ⟨hcond, hnil⟩]
    rw [hrw]
    exact setLastElided_lastEnds _ hnil
  · intro l hl
    unfold elideLine
    rw [if_pos (show 1 ≤ l.length from List.length_pos.mpr hl)]
  · intro l hl
    obtain ⟨a, rfl⟩ := List.length_eq_one.mp hl
    rfl

/-- C4, witness for the amended statement at `text = "abcdefgh"`,
`maxChars = 2`, `maxLines = 3`. -/
theorem wrap_ellipsis_witness :
    lastEndsEllipsis (wrapByChars "abcdefgh".data 2 3) = true :=
  (wrap_ellipsis "abcdefgh".data 2 3 (by decide) (by decide) (by decide)).1

/-! ### Properties of escaping -/

theorem ampEscapedF_nil (f : Nat) : ampEscapedF [] f = true := by
  cases f <;> rfl

theorem ampEscapedF_congr (f1 : Nat) :
    ∀ (l : List Char) (f2 : Nat), l.length ≤ f1 → l.length ≤ f2 →
    ampEscapedF l f1 = ampEscapedF l f2 := by
  induction f1 with
  | zero =>
    intro l f2 h1 _
    have hl : l = [] := List.length_eq_zero.mp (Nat.le_zero.mp h1)
    subst hl
    rw [ampEscapedF_nil, ampEscapedF_nil]
  | succ f ih =>
    intro l f2 h1 h2
    cases l with
    | nil => rw [ampEscapedF_nil, ampEscapedF_nil]
    | cons c r =>
      cases f2 with
      | zero => simp at h2
      | succ g =>
        rw [ampEscapedF, ampEscapedF]
        have hrf : r.length ≤ f := by simpa using h1
        have hrg : r.length ≤ g := by simpa using h2
        split_ifs <;> try rfl
        all_goals apply ih
        all_goals
          try simp only [List.length_drop]
          omega

theorem ampEscaped_escChar (c : Char) (r : List Char) :
    ampEscaped (escChar c ++ r) = ampEscaped r := by
  by_cases h1 : c = '&'
  · subst h1
    have hstep : ampEscaped (escChar '&' ++ r)
        = ampEscapedF r ('a' :: 'm' :: 'p' :: ';' :: r).length := rfl
    rw [hstep]
    exact ampEscapedF_congr _ r r.length (by simp only [List.length_cons]; omega) (le_refl _)
  by_cases h2 : c = '<'
  · subst h2
    have hstep : ampEscaped (escChar '<' ++ r)
        = ampEscapedF r ('l' :: 't' :: ';' :: r).length := rfl
    rw [hstep]
    exact ampEscapedF_congr _ r r.length (by simp only [List.length_cons]; omega) (le_refl _)
  by_cases h3 : c = '>'
  · subst h3
    have hstep : ampEscaped (escChar '>' ++ r)
        = ampEscapedF r ('g' :: 't' :: ';' :: r).length := rfl
    rw [hstep]
    exact ampEscapedF_congr _ r r.length (by simp only [List.length_cons]; omega) (le_refl _)
  by_cases h4 : c = '"'
  · subst h4
    have hstep : ampEscaped (escChar '"' ++ r)
        = ampEscapedF r ('q' :: 'u' :: 'o' :: 't' :: ';' :: r).length := rfl
    rw [hstep]
    exact ampEscapedF_congr _ r r.length (by simp only [List.length_cons]; omega) (le_refl _)
  by_cases h5 : c = '\''
  · subst h5
    have hstep : ampEscaped (escChar '\'' ++ r)
        = ampEscapedF r ('#' :: 'x' :: '2' :: '7' :: ';' :: r).length := rfl
    rw [hstep]
    exact ampEscapedF_congr _ r r.length (by simp only [List.length_cons]; omega) (le_refl _)
  have he : escChar c = [c] := by simp [escChar, h1, h2, h3, h4, h5]
  rw [he]
  show ampEscapedF (c :: r) (r.length + 1) = ampEscapedF r r.length
  rw [ampEscapedF, if_neg h1]

theorem specials_not_mem_escChar (d : Char) :
    '<' ∉ escChar d ∧ '>' ∉ escChar d ∧ '"' ∉ escChar d := by
  unfold escChar
  split_ifs with h1 h2 h3 h4 h5
  · exact ⟨by decide, by decide, by decide⟩
  · exact ⟨by decide, by decide, by decide⟩
  · exact ⟨by decide, by decide, by decide⟩
  · exact ⟨by decide, by decide, by decide⟩
  · exact ⟨by decide, by decide, by decide⟩
  · exact ⟨fun hh => h2 (List.mem_singleton.mp hh).symm,
      fun hh => h3 (List.mem_singleton.mp hh).symm,
      fun hh => h4 (List.mem_singleton.mp hh).symm⟩

theorem htmlEscape_no_raw (s : List Char) :
    '<' ∉ htmlEscape s ∧ '>' ∉ htmlEscape s ∧ '"' ∉ htmlEscape s
    ∧ ampEscaped (htmlEscape s) = true := by
  induction s with
  | nil => exact ⟨by simp [htmlEscape], by simp [htmlEscape], by simp [htmlEscape], rfl⟩
  | cons c s ih =>
    have h := specials_not_mem_escChar c
    refine ⟨?_, ?_, ?_, ?_⟩
    · show '<' ∉ escChar c ++ htmlEscape s
      simp only [List.mem_append]
      rintro (h1 | h1)
      exacts [h.1 h1, ih.1 h1]
    · show '>' ∉ escChar c ++ htmlEscape s
      simp only [List.mem_append]
      rintro (h1 | h1)
      exacts [h.2.1 h1, ih.2.1 h1]
    · show '"' ∉ escChar c ++ htmlEscape s
      simp only [List.mem_append]
      rintro (h1 | h1)
      exacts [h.2.2 h1, ih.2.2.1 h1]
    · show ampEscaped (escChar c ++ htmlEscape s) = true
      rw [ampEscaped_escChar]
      exact ih.2.2.2

theorem tspanChunks_decomp (showQ : ℚ → List Char) (x lineH : ℚ) :
    ∀ (lines : List (List Char)) (i : Nat) (l : List Char), l ∈ lines →
    ∃ pre post, tspanChunks showQ x lineH i lines = pre ++ htmlEscape l ++ post := by
  intro lines
  induction lines with
  | nil => intro i l hl; simp at hl
  | cons line rest ih =>
    intro i l hl
    rcases List.mem_cons.mp hl with rfl | hl
    · refine ⟨"<tspan x=\"".data ++ showQ x ++ "\" dy=\"".data
        ++ (if i = 0 then ['0'] else showQ lineH) ++ "\">".data,
        "</tspan>".data ++ tspanChunks showQ x lineH (i + 1) rest, ?_⟩
      simp [tspanChunks, tspanChunk]
    · obtain ⟨pre, post, hp⟩ := ih (i + 1) l hl
      refine ⟨tspanChunk showQ x lineH i line ++ pre, post, ?_⟩
      simp [tspanChunks, hp]

/-- C5: user-supplied free text never reaches the markup raw.  The escaping
step removes every raw `<`, `>` and `"` and leaves every `&` as the start of
one of the five entities `html.escape` can emit; and `_tspans` — through
which every effect line, label line and item line is rendered — inserts each
line's content in escaped form. -/
theorem escaping_sound :
    (∀ s : List Char, '<' ∉ htmlEscape s ∧ '>' ∉ htmlEscape s ∧ '"' ∉ htmlEscape s
      ∧ ampEscaped (htmlEscape s) = true)
    ∧ ∀ (showQ : ℚ → List Char) (lines : List (List Char)) (x fy lh : ℚ)
        (anc : List Char) (fs : Nat) (fw fill : List Char) (l : List Char), l ∈ lines →
        ∃ pre post, tspans showQ lines x fy lh anc fs fw fill = pre ++ htmlEscape l ++ post := by
  constructor
  · exact htmlEscape_no_raw
  · intro showQ lines x fy lh anc fs fw fill l hl
    obtain ⟨pre, post, hp⟩ := tspanChunks_decomp showQ x lh lines 0 l hl
    have hne : lines ≠ [] := by rintro rfl; simp at hl
    refine ⟨("<text x=\"".data ++ showQ x ++ "\" y=\"".data ++ showQ fy
      ++ "\" text-anchor=\"".data ++ anc
      ++ "\" font-size=\"".data ++ (Nat.repr fs).data
      ++ "\" font-weight=\"".data ++ fw
      ++ "\" font-family=\"Sarabun, Noto Sans Thai, sans-serif\" fill=\"".data ++ fill
      ++ "\">".data) ++ pre, post ++ "</text>".data, ?_⟩
    unfold tspans
    rw [if_neg hne, hp]
    simp

/-- C5, witness: the line `"a<"` is inserted by `_tspans` in escaped form. -/
theorem escaping_sound_witness :
    ∃ pre post,
      tspans (fun _ => []) [['a', '<']] 0 0 0 [] 0 [] [] = pre ++ htmlEscape ['a', '<'] ++ post :=
  escaping_sound.2 (fun _ => []) [['a', '<']] 0 0 0 [] 0 [] [] ['a', '<'] (by decide)

/-! ### Counting bones and ribs -/

theorem catElems_label_nil (sq : ℚ → ℚ) (showQ : ℚ → List Char) (a : Anchor) (c : CatIn)
    (h : c.label = []) : catElems sq showQ a c = ([], []) := by
  unfold catElems
  rw [if_pos h]

theorem normCat_label_ne (c : CatIn) : (normCat c).label ≠ [] := by
  show (if pyStrip c.label = [] then thaiUnspecified else pyStrip c.label) ≠ []
  split_ifs with hh
  · decide
  · exact hh

theorem catElems_counts (sq : ℚ → ℚ) (showQ : ℚ → List Char) (a : Anchor) (c : CatIn)
    (h : ¬ c.label = []) :
    ((catElems sq showQ a c).1.countP isBoneLine) = 1
    ∧ ((catElems sq showQ a c).1.countP isRibLine) = min c.items.length 2 := by
  unfold catElems
  rw [if_neg h]
  have hribs : ∀ p : List Char × ℚ,
      isBoneLine (ribElems sq showQ a p.1 p.2).1 = false
      ∧ isRibLine (ribElems sq showQ a p.1 p.2).1 = true := fun p => ⟨rfl, rfl⟩
  constructor
  · rw [List.countP_cons_of_pos _ _ (by exact rfl)]
    rw [List.map_map, List.countP_map]
    rw [List.countP_eq_zero.mpr (by
      intro p _
      simp only [Function.comp_apply]
      simp [(hribs p).1])]
  · rw [List.countP_cons_of_neg _ _ (by simp [isRibLine, boneLine, ribStroke, boneStroke])]
    rw [List.map_map, List.countP_map]
    rw [List.countP_eq_length.mpr (by
      intro p _
      simp only [Function.comp_apply]
      simp [(hribs p).2])]
    simp only [List.length_zip, List.length_take]
    have : ribPositions.length = 2 := rfl
    rw [this]
    omega

theorem layers_counts (sq : ℚ → ℚ) (showQ : ℚ → List Char) :
    ∀ (cs : List CatIn) (ans : List Anchor),
    ((((cs.zip ans).map fun p => catElems sq showQ p.2 p.1).map Prod.fst).flatten.countP isBoneLine
      = (cs.take ans.length).countP fun c => !(c.label = [] : Bool))
    ∧ ((((cs.zip ans).map fun p => catElems sq showQ p.2 p.1).map Prod.fst).flatten.countP isRibLine
      = ((cs.take ans.length).map fun c =>
          if c.label = [] then 0 else min c.items.length 2).sum) := by
  intro cs
  induction cs with
  | nil => intro ans; simp
  | cons c cs ih =>
    intro ans
    cases ans with
    | nil => simp
    | cons a ans' =>
      simp only [List.zip_cons_cons, List.map_cons, List.flatten_cons, List.countP_append,
        List.length_cons, List.take_succ_cons, List.sum_cons]
      by_cases h : c.label = []
      · rw [catElems_label_nil sq showQ a c h]
        constructor
        · rw [List.countP_cons_of_neg _ _ (by simp [h])]
          simpa using (ih ans').1
        · rw [if_pos h]
          simpa using (ih ans').2
      · have hc := catElems_counts sq showQ a c h
        constructor
        · rw [hc.1, List.countP_cons_of_pos _ _ (by simp [h]), (ih ans').1]
          omega
        · rw [hc.2, if_neg h, (ih ans').2]

theorem normCats_length_le (cats : List CatIn) : (normCats cats).length ≤ 4 := by
  simp only [normCats, List.length_map, List.length_take]
  omega

theorem padCats_length (cs : List CatIn) (h : cs.length ≤ 4) : (padCats cs).length = 4 := by
  simp only [padCats, List.length_append, List.length_replicate]
  omega

theorem bones_count_eq (sq : ℚ → ℚ) (showQ : ℚ → List Char) (cats : List CatIn)
    (h : cats ≠ []) :
    (fishboneLayers sq showQ cats).1.countP isBoneLine = min cats.length 4 := by
  have hl := (layers_counts sq showQ (padCats (normCats cats)) anchors).1
  have hmain : (fishboneLayers sq showQ cats).1.countP isBoneLine
      = ((padCats (normCats cats)).take anchors.length).countP
          fun c => !(c.label = [] : Bool) := hl
  rw [hmain, show anchors.length = 4 from rfl,
    List.take_of_length_le (le_of_eq (padCats_length _ (normCats_length_le cats)))]
  unfold padCats
  rw [List.countP_append]
  have h1 : (normCats cats).countP (fun c => !(c.label = [] : Bool))
      = (normCats cats).length := by
    apply List.countP_eq_length.mpr
    intro x hx
    simp only [normCats, List.mem_map] at hx
    obtain ⟨c', _, rfl⟩ := hx
    simpa using normCat_label_ne c'
  have h2 : (List.replicate (4 - (normCats cats).length) (⟨[], []⟩ : CatIn)).countP
      (fun c => !(c.label = [] : Bool)) = 0 := by
    apply List.countP_eq_zero.mpr
    intro x hx
    rw [(List.mem_replicate.mp hx).2]
    simp
  rw [h1, h2]
  have h3 : (normCats cats).length = min 4 cats.length := by
    simp [normCats, h]
  rw [h3]
  omega

/-- C1: `fishbone_svg` is total (the embedding is a function returning a
markup string for every effect and category list), its output always carries
the fixed `viewBox="0 0 2400 1200"` declaration, the bone-length divisor is
guarded away from zero by the `or 1.0` fallback, the padded category list
has exactly as many entries as the anchor table (so every anchor access is
in bounds), and every category contributes at most as many ribs as there are
rib fractions (so every rib-fraction access is in bounds). -/
theorem fishbone_svg_safe (sq : ℚ → ℚ) (showQ : ℚ → List Char) (effect : List Char)
    (cats : List CatIn) :
    occursIn ("viewBox=\"0 0 2400 1200\"".data) (fishboneSvg sq showQ effect cats)
    ∧ (∀ q : ℚ, pyOrOne q ≠ 0)
    ∧ (∀ a : Anchor, boneLen sq a ≠ 0)
    ∧ (padCats (normCats cats)).length = anchors.length
    ∧ (∀ c ∈ padCats (normCats cats), (c.items.take 2).length ≤ ribPositions.length) := by
  have hguard : ∀ q : ℚ, pyOrOne q ≠ 0 := by
    intro q
    unfold pyOrOne
    split_ifs with hq
    · exact one_ne_zero
    · exact hq
  refine ⟨?_, hguard, fun a => hguard _, ?_, ?_⟩
  · refine ⟨svgOpen, svgHeader2
      ++ ((fishboneLayers sq showQ cats).1.map (renderLineElem showQ)).flatten
      ++ svgHeadPre ++ showQ (headX + headW / 2) ++ svgHeadMid
      ++ effectText showQ effect
      ++ svgTextPre ++ (fishboneLayers sq showQ cats).2.flatten ++ svgTail, ?_⟩
    have hvb : ("viewBox=\"0 0 2400 1200\"".data) = viewBoxAttr := by decide
    rw [hvb]
    unfold fishboneSvg
    simp [List.append_assoc]
  · rw [show anchors.length = 4 from rfl]
    exact padCats_length _ (normCats_length_le cats)
  · intro c _
    show (c.items.take 2).length ≤ 2
    rw [List.length_take]
    omega

/-- C1, witness: the safety conjuncts evaluated at concrete input (empty
effect, empty category list, and the placeholder category that results). -/
theorem fishbone_svg_safe_witness :
    occursIn ("viewBox=\"0 0 2400 1200\"".data)
      (fishboneSvg (fun _ => 0) (fun _ => []) [] [])
    ∧ ((⟨thaiNoData, []⟩ : CatIn).items.take 2).length ≤ ribPositions.length :=
  ⟨(fishbone_svg_safe (fun _ => 0) (fun _ => []) [] []).1,
   (fishbone_svg_safe (fun _ => 0) (fun _ => []) [] []).2.2.2.2
     ⟨thaiNoData, []⟩ (by decide)⟩

/-- C2, counterexample: the claim's scenario promises that a category with
10 items renders exactly 2 ribs, but a category whose 10 items are all blank
strings renders 0 ribs (blank items are discarded before the capacity cut). -/
theorem capacity_scenario_cex :
    ¬ (((fishboneLayers (fun _ => 0) (fun _ => [])
        [⟨['A'], List.replicate 10 []⟩]).1.countP isRibLine) = 2) := by decide

/-- C2 (amended): at most 4 bone lines are ever rendered; every category
renders at most 2 ribs; and a category with at least 2 items that are
non-blank after stripping renders exactly 2 ribs (so 10 such items render
exactly 2 ribs, the rest silently discarded). -/
theorem capacity_enforcement (sq : ℚ → ℚ) (showQ : ℚ → List Char) (cats : List CatIn) :
    (fishboneLayers sq showQ cats).1.countP isBoneLine ≤ 4
    ∧ (∀ (a : Anchor) (c : CatIn), ((catElems sq showQ a c).1.countP isRibLine) ≤ 2)
    ∧ (∀ (a : Anchor) (c : CatIn),
        2 ≤ ((c.items.map pyStrip).filter fun x => !(x = [] : Bool)).length →
        ((catElems sq showQ a (normCat c)).1.countP isRibLine) = 2) := by
  refine ⟨?_, ?_, ?_⟩
  · have hl := (layers_counts sq showQ (padCats (normCats cats)) anchors).1
    have hmain : (fishboneLayers sq showQ cats).1.countP isBoneLine
        = ((padCats (normCats cats)).take anchors.length).countP
            fun c => !(c.label = [] : Bool) := hl
    rw [hmain, show anchors.length = 4 from rfl]
    refine le_trans (List.countP_le_length _) ?_
    rw [List.length_take]
    omega
  · intro a c
    by_cases h : c.label = []
    · rw [catElems_label_nil sq showQ a c h]
      simp
    · rw [(catElems_counts sq showQ a c h).2]
      omega
  · intro a c hfilter
    rw [(catElems_counts sq showQ a (normCat c) (normCat_label_ne c)).2]
    have hlen : (normCat c).items.length = 2 := by
      show (((c.items.map pyStrip).filter fun x => !(x = [] : Bool)).take 2).length = 2
      rw [List.length_take]
      omega
    rw [hlen]
    omega

/-- C2, witness: a category with 10 non-blank items renders exactly 2 ribs. -/
theorem capacity_enforcement_witness :
    ((catElems (fun _ => 0) (fun _ => []) ⟨820, 280, true⟩
        (normCat ⟨['A'], List.replicate 10 ['x']⟩)).1.countP isRibLine) = 2 :=
  (capacity_enforcement (fun _ => 0) (fun _ => []) []).2.2 ⟨820, 280, true⟩
    ⟨['A'], List.replicate 10 ['x']⟩ (by decide)

/-- C6: with an empty effect and an empty category list, normalization
substitutes exactly one placeholder category (label `"ยังไม่มีข้อมูล"`, no
items), the diagram renders exactly one bone and zero ribs, and the head
text falls back to exactly the placeholder effect line. -/
theorem empty_input_placeholder :
    normCats [] = [⟨thaiNoData, []⟩]
    ∧ (∀ (sq : ℚ → ℚ) (showQ : ℚ → List Char),
        (fishboneLayers sq showQ []).1.countP isBoneLine = 1
        ∧ (fishboneLayers sq showQ []).1.countP isRibLine = 0)
    ∧ effectLines [] = [defaultEffect] := by
  refine ⟨by decide, ?_, by decide⟩
  intro sq showQ
  have hl := layers_counts sq showQ (padCats (normCats [])) anchors
  exact ⟨hl.1.trans (by decide), hl.2.trans (by decide)⟩

/-- C7: the builder is deterministic and stateless — the embedding is a pure
function of `(effect, categories)` (given the square-root and number-display
functions), so two calls with identical arguments give identical output. -/
theorem fishbone_svg_deterministic (sq : ℚ → ℚ) (showQ : ℚ → List Char) (effect : List Char)
    (cats : List CatIn) :
    fishboneSvg sq showQ effect cats = fishboneSvg sq showQ effect cats := rfl

/-- C8, counterexample: the claim says the rotated direction is sign-flipped
for bottom-side bones (`isTop = false`); for the program's third anchor
(bottom-left, `(920, 940, top := false)`) with the square root fixed at `5`,
the code's rib direction is the unflipped rotation `(-68, -60)`, not the
flipped `(68, 60)` the claim demands. -/
theorem rib_direction_cex :
    (⟨920, 940, false⟩ : Anchor) ∈ anchors
    ∧ ¬ (ribDir (fun _ => 5) ⟨920, 940, false⟩
        = ((unitDir (fun _ => 5) ⟨920, 940, false⟩).2,
           -(unitDir (fun _ => 5) ⟨920, 940, false⟩).1)) := by
  constructor
  · decide
  · intro hEq
    have h2 : unitDir (fun _ => 5) ⟨920, 940, false⟩ = (-60, 68) := by
      norm_num [unitDir, boneDelta, boneEnd, boneLen, pyOrOne, spineY, endDx]
    have h1 : ribDir (fun _ => 5) ⟨920, 940, false⟩ = (-68, -60) := by
      norm_num [ribDir, h2]
    rw [h1, h2] at hEq
    norm_num [Prod.ext_iff] at hEq

/-- C8 (amended): the rib direction is the bone's unit direction rotated 90°,
with the sign flipped for TOP-side bones: the multiplier applied to the
rotated vector is `-1` when `isTop` and `1` otherwise (`isTop ? -1 : 1`). -/
theorem rib_direction_sign (sq : ℚ → ℚ) (a : Anchor) :
    ribDir sq a = ((if a.top then (-1 : ℚ) else 1) * (-(unitDir sq a).2),
      (if a.top then (-1 : ℚ) else 1) * (unitDir sq a).1) := by
  unfold ribDir
  cases h : a.top <;> simp [h]

/-- C9, counterexample: normalization does not take the first 2 elements of
the item list: for items `["", "x", "y"]` it keeps `["x", "y"]`, not the
first two elements `["", "x"]` (blank items are stripped and dropped before
the capacity cut). -/
theorem norm_items_cex :
    (normCat ⟨['A'], [[], ['x'], ['y']]⟩).items = [['x'], ['y']]
    ∧ (normCat ⟨['A'], [[], ['x'], ['y']]⟩).items
        ≠ ([[], ['x'], ['y']] : List (List Char)).take 2 := by decide

/-- C9 (amended): for a non-empty input list, normalization maps over the
first 4 categories; within each category it strips every item, drops the
items that are blank after stripping, and keeps the first 2 of the
remaining items, in their original order. -/
theorem normalization_take (cats : List CatIn) (h : cats ≠ []) :
    normCats cats = (cats.take 4).map normCat
    ∧ ∀ c : CatIn, (normCat c).items
        = ((c.items.map pyStrip).filter fun x => !(x = [] : Bool)).take 2 := by
  constructor
  · simp [normCats, h]
  · intro c
    rfl

/-- C9, witness at a one-category list with a blank and three real items. -/
theorem normalization_take_witness :
    normCats [⟨['A'], [[], ['x'], ['y'], ['z']]⟩]
      = (([⟨['A'], [[], ['x'], ['y'], ['z']]⟩] : List CatIn).take 4).map normCat :=
  (normalization_take [⟨['A'], [[], ['x'], ['y'], ['z']]⟩] (by decide)).1

/-- C10: for a non-empty input list of `N` categories, exactly
`min N 4` bones are rendered; a category whose supplied label is blank after
stripping gets the placeholder label `"ไม่ระบุ"` (and hence still a bone);
and the blank-label padding entries render nothing at all. -/
theorem bones_rendered_count (sq : ℚ → ℚ) (showQ : ℚ → List Char) (cats : List CatIn)
    (h : cats ≠ []) :
    (fishboneLayers sq showQ cats).1.countP isBoneLine = min cats.length 4
    ∧ (∀ c : CatIn, pyStrip c.label = [] → (normCat c).label = thaiUnspecified)
    ∧ (∀ (a : Anchor) (items : List (List Char)),
        catElems sq showQ a ⟨[], items⟩ = ([], [])) := by
  refine ⟨bones_count_eq sq showQ cats h, ?_, ?_⟩
  · intro c hc
    show (if pyStrip c.label = [] then thaiUnspecified else pyStrip c.label) = thaiUnspecified
    rw [if_pos hc]
  · intro a items
    exact catElems_label_nil sq showQ a ⟨[], items⟩ rfl

/-- C10, witness: two supplied categories render exactly two bones. -/
theorem bones_rendered_count_witness :
    (fishboneLayers (fun _ => 0) (fun _ => [])
        [⟨['A'], []⟩, ⟨['B'], []⟩]).1.countP isBoneLine
      = min ([⟨['A'], []⟩, ⟨['B'], []⟩] : List CatIn).length 4 :=
  (bones_rendered_count (fun _ => 0) (fun _ => [])
    [⟨['A'], []⟩, ⟨['B'], []⟩] (by decide)).1

end Fishbone
